import Mathlib

/-!
Verification of the audit/dedup core of spotify-audit-rs.

The definitions below are a shallow embedding of `src/core/src/audit.rs` and
`src/core/src/models.rs`.  Network interactions (the rspotify client) are
modelled by explicit environments recording the outcome of each call, and every
operation additionally returns the trace of network events it issued, in order.
Rust's `HashMap` iteration order (used when walking ISRC groups) is modelled by
an explicit group-order parameter constrained to be a permutation of the
canonical insertion-ordered grouping.
-/

/-- Artist as used by the core: only the display name is read
(`a.name` in `create_problem_report` and `inspect_track`). -/
structure SimplifiedArtist where
  name : String
deriving DecidableEq, Repr

/-- Album as used by the core: display name and optional release date. -/
structure SimplifiedAlbum where
  name : String
  release_date : Option String
deriving DecidableEq, Repr

/-- rspotify `FullTrack`, restricted to the fields the core reads.
The catalog-scoped `TrackId` is modelled as a `String`; it is absent for
locally uploaded files.  `external_ids` and `external_urls` are association
lists standing for the `HashMap<String, String>` fields (unique keys). -/
structure FullTrack where
  id : Option String
  name : String
  artists : List SimplifiedArtist
  album : SimplifiedAlbum
  is_playable : Option Bool
  available_markets : List String
  external_ids : List (String × String)
  external_urls : List (String × String)
  popularity : Nat
  duration_ms : Int
  disc_number : Int
  track_number : Nat
  is_local : Bool
deriving DecidableEq, Repr

/-- rspotify `PlayableItem`: a playlist entry is either a track or some other
playable item (podcast episode, placeholder). -/
inductive PlayableItem
  | track (t : FullTrack)
  | episode
deriving DecidableEq, Repr

/-- rspotify `PlaylistItem`: the `track` field may be absent. -/
structure PlaylistItem where
  track : Option PlayableItem
deriving DecidableEq, Repr

/-- `models.rs` `ProblematicTrack`. -/
structure ProblematicTrack where
  id : String
  name : String
  artists : String
  album : String
  reason : String
  external_url : String
  available_markets_count : Nat
deriving DecidableEq, Repr

/-- `models.rs` `AuditSummary`. -/
structure AuditSummary where
  total_tracks_scanned : Nat
  problematic_tracks : List ProblematicTrack
deriving DecidableEq, Repr

/-- `models.rs` `SyncBatchLog`. -/
structure SyncBatchLog where
  batch_index : Nat
  tracks_count : Nat
  track_ids : List String
  status : String
deriving DecidableEq, Repr

/-- `models.rs` `SyncReport`. -/
structure SyncReport where
  initial_liked_count : Nat
  final_liked_count : Nat
  total_tracks_in_playlist : Nat
  tracks_processed : Nat
  estimated_added : Nat
  batch_logs : List SyncBatchLog
deriving DecidableEq, Repr

/-- `models.rs` `TrackInspection`. -/
structure TrackInspection where
  id : String
  name : String
  artists : List String
  album : String
  release_date : String
  duration_ms : Nat
  popularity : Nat
  is_playable : Option Bool
  available_markets : List String
  external_ids : List (String × String)
  external_urls : List (String × String)
  disc_number : Int
  track_number : Nat
  is_local : Bool
deriving DecidableEq, Repr

/-- `audit.rs` `AuditError`.  The wrapped rspotify `ClientError` is modelled
as its display string. -/
inductive AuditError
  | Spotify (e : String)
  | InvalidId (s : String)
  | InvalidTrackId (s : String)
deriving DecidableEq, Repr

/-- One network interaction issued by an operation, recorded in issuance
order. -/
inductive NetEvent
  | savedCountQuery
  | savedTracksPage
  | playlistItemsPage
  | trackLookup
  | addChunk (ids : List String)
  | deleteChunk (ids : List String)
deriving DecidableEq, Repr

/-- Whether a network event mutates the library (a bulk add or delete call). -/
def NetEvent.isMutation : NetEvent → Bool
  | NetEvent.addChunk _ => true
  | NetEvent.deleteChunk _ => true
  | _ => false

/-- Modelled from the spec: validation of a caller-supplied identifier into
"the catalog's native identifier shape" is performed by the external rspotify
crate (`PlaylistId::from_id` / `TrackId::from_id`, not part of this
repository), which accepts exactly the non-empty ASCII-alphanumeric (base-62)
strings. -/
def validSpotifyId (s : String) : Bool :=
  !s.isEmpty && s.toList.all Char.isAlphanum

/-- `audit.rs` `create_problem_report`: project a track into a
`ProblematicTrack` with the given reason. -/
def create_problem_report (track : FullTrack) (reason : String) : ProblematicTrack :=
  let artists := String.intercalate ", " (track.artists.map SimplifiedArtist.name)
  let available_markets_count := track.available_markets.length
  { id := (track.id).getD "unknown"
    name := track.name
    artists := artists
    album := track.album.name
    reason := reason
    external_url := ((track.external_urls).lookup "spotify").getD ""
    available_markets_count := available_markets_count }

/-- `audit.rs` `analyze_track`: flag a track exactly when `is_playable` is
explicitly `Some(false)` (`unwrap_or(true)` treats absence as playable). -/
def analyze_track (track : FullTrack) : Option ProblematicTrack :=
  let is_playable := (track.is_playable).getD true
  if !is_playable then
    some (create_problem_report track "Track marked as unplayable by Spotify")
  else
    none

/-- One step of the `scan_playlist` enumeration loop: only `Track` items are
counted and classified; episodes and absent items are skipped silently. -/
def scanStep (s : AuditSummary) (it : PlaylistItem) : AuditSummary :=
  match it.track with
  | some (PlayableItem.track t) =>
    let s2 := { s with total_tracks_scanned := s.total_tracks_scanned + 1 }
    match analyze_track t with
    | some p => { s2 with problematic_tracks := s2.problematic_tracks ++ [p] }
    | none => s2
  | _ => s

/-- The `scan_playlist` enumeration loop over a fully materialised item list. -/
def scanItems (items : List PlaylistItem) : AuditSummary :=
  items.foldl scanStep { total_tracks_scanned := 0, problematic_tracks := [] }

/-- Environment for `scan_playlist`: the outcome of enumerating the playlist's
items. -/
structure ScanEnv where
  playlistItemsResult : Except String (List PlaylistItem)

/-- `audit.rs` `scan_playlist`: validate the playlist id, then enumerate and
classify.  Returns the result together with the network-event trace. -/
def scan_playlist (env : ScanEnv) (playlist_id_str : String) :
    Except AuditError AuditSummary × List NetEvent :=
  if validSpotifyId playlist_id_str then
    match env.playlistItemsResult with
    | Except.error e => (Except.error (AuditError.Spotify e), [NetEvent.playlistItemsPage])
    | Except.ok items => (Except.ok (scanItems items), [NetEvent.playlistItemsPage])
  else
    (Except.error (AuditError.InvalidId playlist_id_str), [])

/-- `audit.rs` `inspect_track` body: materialise a `TrackInspection` from a
fetched track.  `duration.num_milliseconds() as u32` is the i64-to-u32 cast,
modelled as reduction modulo 2^32. -/
def mkInspection (track : FullTrack) : TrackInspection :=
  { id := (track.id).getD ""
    name := track.name
    artists := track.artists.map SimplifiedArtist.name
    album := track.album.name
    release_date := (track.album.release_date).getD ""
    duration_ms := (track.duration_ms % (2 ^ 32 : Int)).toNat
    popularity := track.popularity
    is_playable := track.is_playable
    available_markets := track.available_markets
    external_ids := track.external_ids
    external_urls := track.external_urls
    disc_number := track.disc_number
    track_number := track.track_number
    is_local := track.is_local }

/-- Environment for `inspect_track`: the outcome of the single-track lookup. -/
structure InspectEnv where
  trackResult : Except String FullTrack

/-- `audit.rs` `inspect_track`: validate the track id, then fetch and
materialise.  Returns the result together with the network-event trace. -/
def inspect_track (env : InspectEnv) (track_id_str : String) :
    Except AuditError TrackInspection × List NetEvent :=
  if validSpotifyId track_id_str then
    match env.trackResult with
    | Except.error e => (Except.error (AuditError.Spotify e), [NetEvent.trackLookup])
    | Except.ok t => (Except.ok (mkInspection t), [NetEvent.trackLookup])
  else
    (Except.error (AuditError.InvalidTrackId track_id_str), [])

/-- Fuel-indexed chunking; the fuel only drives structural recursion and any
fuel at least the list length gives Rust's `chunks(50)` (see
`chunksGo_succ_eq` and `chunks50_eq`). -/
def chunksGo {α : Type} : Nat → List α → List (List α)
  | _, [] => []
  | 0, _ => []
  | fuel + 1, l => l.take 50 :: chunksGo fuel (l.drop 50)

/-- Rust `slice::chunks(50)`: contiguous chunks of at most 50 elements in
original order, the last chunk possibly shorter. -/
def chunks50 {α : Type} (l : List α) : List (List α) :=
  chunksGo l.length l

/-- The ids of the collectible tracks of a playlist, in enumeration order:
items that are actual tracks and carry an identifier. -/
def collectTrackIds (items : List PlaylistItem) : List String :=
  items.filterMap (fun it =>
    match it.track with
    | some (PlayableItem.track t) => t.id
    | _ => none)

/-- The `sync_playlist_to_liked` batch loop: one `current_user_saved_tracks_add`
call per chunk, each outcome recorded in its own `SyncBatchLog`; a failing
chunk does not stop the loop.  `mutate i c` is the outcome of the add call for
chunk `c` at batch index `i`.  Also returns the network events issued. -/
def syncBatchLoop (mutate : Nat → List String → Except String Unit) :
    Nat → List (List String) → List SyncBatchLog × List NetEvent
  | _, [] => ([], [])
  | i, c :: rest =>
    let log : SyncBatchLog :=
      match mutate i c with
      | Except.ok _ =>
        { batch_index := i, tracks_count := c.length, track_ids := c, status := "Success" }
      | Except.error e =>
        { batch_index := i, tracks_count := c.length, track_ids := c,
          status := "Error: " ++ e }
    let r := syncBatchLoop mutate (i + 1) rest
    (log :: r.1, NetEvent.addChunk c :: r.2)

/-- Environment for `sync_playlist_to_liked`: outcomes of the initial count
query, the playlist enumeration, each add call, and the final count query. -/
structure SyncEnv where
  initialCountResult : Except String Nat
  playlistItemsResult : Except String (List PlaylistItem)
  addResult : Nat → List String → Except String Unit
  finalCountResult : Except String Nat

/-- `audit.rs` `sync_playlist_to_liked`.  Mirrors the source order: the
liked-songs count is queried first, the playlist id is validated second, then
the playlist is enumerated (every item counts toward
`total_tracks_in_playlist`, only track items with an id are collected), the
empty case short-circuits, otherwise the batch loop runs and the count is
re-queried; `estimated_added` is only set when the final count is not below
the initial one. -/
def sync_playlist_to_liked (env : SyncEnv) (playlist_id_str : String) :
    Except AuditError SyncReport × List NetEvent :=
  match env.initialCountResult with
  | Except.error e => (Except.error (AuditError.Spotify e), [NetEvent.savedCountQuery])
  | Except.ok initial =>
    if validSpotifyId playlist_id_str then
      match env.playlistItemsResult with
      | Except.error e =>
        (Except.error (AuditError.Spotify e),
         [NetEvent.savedCountQuery, NetEvent.playlistItemsPage])
      | Except.ok items =>
        let track_ids := collectTrackIds items
        let base : SyncReport :=
          { initial_liked_count := initial
            final_liked_count := 0
            total_tracks_in_playlist := items.length
            tracks_processed := track_ids.length
            estimated_added := 0
            batch_logs := [] }
        if track_ids = [] then
          (Except.ok { base with final_liked_count := initial },
           [NetEvent.savedCountQuery, NetEvent.playlistItemsPage])
        else
          let r := syncBatchLoop env.addResult 0 (chunks50 track_ids)
          match env.finalCountResult with
          | Except.error e =>
            (Except.error (AuditError.Spotify e),
             NetEvent.savedCountQuery :: NetEvent.playlistItemsPage ::
               (r.2 ++ [NetEvent.savedCountQuery]))
          | Except.ok finalCount =>
            let est := if initial ≤ finalCount then finalCount - initial else 0
            (Except.ok
               { base with
                 final_liked_count := finalCount
                 estimated_added := est
                 batch_logs := r.1 },
             NetEvent.savedCountQuery :: NetEvent.playlistItemsPage ::
               (r.2 ++ [NetEvent.savedCountQuery]))
    else
      (Except.error (AuditError.InvalidId playlist_id_str), [NetEvent.savedCountQuery])

/-- Insertion step of the stable descending sort on available-market count:
the new element is placed before the first element whose count does not
exceed its own, so earlier-encountered elements win ties. -/
def insertByMarketsDesc (t : FullTrack) : List FullTrack → List FullTrack
  | [] => [t]
  | u :: us =>
    if u.available_markets.length ≤ t.available_markets.length then t :: u :: us
    else u :: insertByMarketsDesc t us

/-- Rust `sort_by_key(Reverse(available_markets.len()))` — a stable sort by
descending market count — embedded as a stable insertion sort. -/
def sortByMarketsDesc : List FullTrack → List FullTrack
  | [] => []
  | t :: ts => insertByMarketsDesc t (sortByMarketsDesc ts)

/-- Description string pushed for each removed duplicate:
`format!("{} (Markets: {})", duplicate.name, dup_markets)`. -/
def dupDescription (d : FullTrack) : String :=
  d.name ++ " (Markets: " ++ toString d.available_markets.length ++ ")"

/-- The removal id contributed by one non-keeper group member: its own id,
provided it has one and it differs from the keeper's id. -/
def remId (best d : FullTrack) : Option String :=
  match d.id with
  | some dupId => if some dupId ≠ best.id then some dupId else none
  | none => none

/-- The description contributed by one non-keeper group member, under the same
condition as `remId`. -/
def remName (best d : FullTrack) : Option String :=
  match d.id with
  | some dupId => if some dupId ≠ best.id then some (dupDescription d) else none
  | none => none

/-- Body of the inner dedup loop: push the duplicate's id and description when
it has an id differing from the keeper's (`Some(dup_id) != best_track.id`). -/
def removalStep (best : FullTrack) (acc : List String × List String) (d : FullTrack) :
    List String × List String :=
  match d.id with
  | some dupId =>
    if some dupId ≠ best.id then (acc.1 ++ [dupId], acc.2 ++ [dupDescription d])
    else acc
  | none => acc

/-- Per-ISRC-group processing of `deduplicate_liked_songs`: for groups with
more than one member, stably sort by descending market count, take the head as
keeper, and when the keeper has at least one market walk the remaining members
pushing removal ids and descriptions. -/
def processGroup (tracks : List FullTrack) : List String × List String :=
  if 1 < tracks.length then
    match sortByMarketsDesc tracks with
    | [] => ([], [])
    | best :: rest =>
      if 0 < best.available_markets.length then rest.foldl (removalStep best) ([], [])
      else ([], [])
  else ([], [])

/-- `HashMap::entry(isrc).or_default().push(track)`: append the track to its
key's group, keeping per-group encounter order; new keys go to the back of the
canonical association list. -/
def insertGroup : List (String × List FullTrack) → String → FullTrack →
    List (String × List FullTrack)
  | [], k, t => [(k, [t])]
  | (k2, g) :: rest, k, t =>
    if k2 = k then (k2, g ++ [t]) :: rest
    else (k2, g) :: insertGroup rest k t

/-- The grouping loop of `deduplicate_liked_songs`: tracks with an `isrc`
entry in `external_ids` are grouped by it, others are skipped.  The resulting
association list is the canonical (first-insertion-ordered) representative of
the Rust `HashMap`; its iteration order is abstracted separately. -/
def groupByIsrc (ts : List FullTrack) : List (String × List FullTrack) :=
  ts.foldl
    (fun m t =>
      match (t.external_ids).lookup "isrc" with
      | some isrc => insertGroup m isrc t
      | none => m)
    []

/-- Removal ids contributed by one ISRC group. -/
def groupRemovalIds (kg : String × List FullTrack) : List String :=
  (processGroup kg.2).1

/-- Removal descriptions contributed by one ISRC group. -/
def groupRemovalNames (kg : String × List FullTrack) : List String :=
  (processGroup kg.2).2

/-- The grouping-and-selection phase of `deduplicate_liked_songs`, walking the
groups in the given (hash-map) iteration order and accumulating
`tracks_to_remove` and `removed_names`. -/
def dedupResolve (groups : List (String × List FullTrack)) : List String × List String :=
  groups.foldl
    (fun acc kg => (acc.1 ++ groupRemovalIds kg, acc.2 ++ groupRemovalNames kg))
    ([], [])

/-- The removal loop of `deduplicate_liked_songs`:
`current_user_saved_tracks_delete(chunk)?` per chunk — the `?` propagates the
first failure, so later chunks are never attempted.  `delete i c` is the
outcome of the delete call for chunk `c` at position `i`; the second component
is the trace of delete calls actually issued. -/
def runDeleteChunks (delete : Nat → List String → Except String Unit) :
    Nat → List (List String) → Except String Unit × List NetEvent
  | _, [] => (Except.ok (), [])
  | i, c :: rest =>
    match delete i c with
    | Except.error e => (Except.error e, [NetEvent.deleteChunk c])
    | Except.ok _ =>
      let r := runDeleteChunks delete (i + 1) rest
      (r.1, NetEvent.deleteChunk c :: r.2)

/-- Environment for `deduplicate_liked_songs`: the outcome of enumerating the
saved tracks and of each delete call. -/
structure DedupEnv where
  savedTracksResult : Except String (List FullTrack)
  deleteResult : Nat → List String → Except String Unit

/-- `audit.rs` `deduplicate_liked_songs`.  `order` is the iteration order in
which the Rust `HashMap` yields the ISRC groups; theorems constrain it to be a
permutation of the canonical grouping `groupByIsrc`.  When there is something
to remove, the chunked delete loop runs and its first failure aborts the whole
call; otherwise (and on success) the collected descriptions are returned. -/
def deduplicate_liked_songs (env : DedupEnv)
    (order : List (String × List FullTrack)) :
    Except AuditError (List String) × List NetEvent :=
  match env.savedTracksResult with
  | Except.error e => (Except.error (AuditError.Spotify e), [NetEvent.savedTracksPage])
  | Except.ok _ =>
    let r := dedupResolve order
    if r.1 = [] then (Except.ok r.2, [NetEvent.savedTracksPage])
    else
      let d := runDeleteChunks env.deleteResult 0 (chunks50 r.1)
      match d.1 with
      | Except.error e =>
        (Except.error (AuditError.Spotify e), NetEvent.savedTracksPage :: d.2)
      | Except.ok _ => (Except.ok r.2, NetEvent.savedTracksPage :: d.2)

/-- Helper to build concrete tracks for witnesses: id, name, markets, and an
optional ISRC entry; remaining fields take neutral values. -/
def mkTrack (id : Option String) (nm : String) (markets : List String)
    (isrc : Option String) : FullTrack :=
  { id := id
    name := nm
    artists := []
    album := { name := "", release_date := none }
    is_playable := none
    available_markets := markets
    external_ids := match isrc with | some c => [("isrc", c)] | none => []
    external_urls := []
    popularity := 0
    duration_ms := 0
    disc_number := 1
    track_number := 1
    is_local := false }

/-- Live copy of recording QX1 (two markets). -/
def tLiveA : FullTrack := mkTrack (some "a1") "Alpha" ["US", "MX"] (some "QX1")

/-- Dead copy of recording QX1 (no markets). -/
def tDeadA : FullTrack := mkTrack (some "a2") "AlphaDead" [] (some "QX1")

/-- Live copy of recording QY1. -/
def tLiveB : FullTrack := mkTrack (some "b1") "Beta" ["US"] (some "QY1")

/-- Dead copy of recording QY1. -/
def tDeadB : FullTrack := mkTrack (some "b2") "BetaDead" [] (some "QY1")

/-- A saved-tracks list with two duplicated recordings. -/
def tsDup : List FullTrack := [tLiveA, tDeadA, tLiveB, tDeadB]

/-- One ISRC group with a dead and a live copy, live copy encountered second. -/
def gWitness : List FullTrack := [tDeadA, tLiveA]

/-- A track explicitly marked unplayable, with full metadata. -/
def tUnplayable : FullTrack :=
  { id := some "p1"
    name := "Gone"
    artists := [{ name := "Ann" }, { name := "Bob" }]
    album := { name := "Alb", release_date := some "2001" }
    is_playable := some false
    available_markets := ["US", "CA", "MX"]
    external_ids := []
    external_urls := [("spotify", "urlX")]
    popularity := 3
    duration_ms := 1000
    disc_number := 1
    track_number := 2
    is_local := false }

/-- A track with unknown playability. -/
def tUnknownPlayable : FullTrack := mkTrack (some "p2") "Fine" ["US"] none

/-- An unplayable local file: no catalog id, no spotify URL. -/
def tLocalFile : FullTrack :=
  { id := none
    name := "Home Demo"
    artists := [{ name := "Me" }]
    album := { name := "Demos", release_date := none }
    is_playable := some false
    available_markets := []
    external_ids := []
    external_urls := []
    popularity := 0
    duration_ms := 0
    disc_number := 1
    track_number := 1
    is_local := true }

/-- A collectible playlist track for the sync fixtures. -/
def tS1 : FullTrack := mkTrack (some "s1") "Song1" ["US"] none

/-- Playlist items for the sync witness: one track, one episode, one absent. -/
def itemsW : List PlaylistItem :=
  [{ track := some (PlayableItem.track tS1) }, { track := some PlayableItem.episode },
   { track := none }]

/-- Playlist items with no collectible identifier. -/
def itemsEmpty : List PlaylistItem :=
  [{ track := some PlayableItem.episode }, { track := none },
   { track := some (PlayableItem.track (mkTrack none "Local" [] none)) }]

/-- Sync environment for the witnesses: all network calls succeed. -/
def syncEnvW : SyncEnv :=
  { initialCountResult := Except.ok 5
    playlistItemsResult := Except.ok itemsW
    addResult := fun _ _ => Except.ok ()
    finalCountResult := Except.ok 7 }

/-- Sync environment whose playlist has no collectible identifier. -/
def syncEnvEmpty : SyncEnv :=
  { initialCountResult := Except.ok 5
    playlistItemsResult := Except.ok itemsEmpty
    addResult := fun _ _ => Except.ok ()
    finalCountResult := Except.ok 9 }

/-- Sync environment where the final count regresses below the initial one. -/
def syncEnvRegress : SyncEnv :=
  { initialCountResult := Except.ok 5
    playlistItemsResult := Except.ok itemsW
    addResult := fun _ _ => Except.ok ()
    finalCountResult := Except.ok 3 }

/-- The report produced by `sync_playlist_to_liked syncEnvW "pl1"`. -/
def repW : SyncReport :=
  { initial_liked_count := 5
    final_liked_count := 7
    total_tracks_in_playlist := 3
    tracks_processed := 1
    estimated_added := 2
    batch_logs := [{ batch_index := 0, tracks_count := 1, track_ids := ["s1"],
                     status := "Success" }] }

/-- The trace produced by `sync_playlist_to_liked syncEnvW "pl1"`. -/
def trW : List NetEvent :=
  [NetEvent.savedCountQuery, NetEvent.playlistItemsPage, NetEvent.addChunk ["s1"],
   NetEvent.savedCountQuery]

/-- Fifty-one distinct identifiers, forcing two delete chunks. -/
def idList51 : List String := (List.range 51).map (fun n => "t" ++ toString n)

theorem chunksGo_flatten {α : Type} :
    ∀ (fuel : Nat) (l : List α), l.length ≤ fuel → (chunksGo fuel l).flatten = l := by
  intro fuel
  induction fuel with
  | zero =>
    intro l hl
    cases l with
    | nil => rfl
    | cons x xs => simp at hl
  | succ n ih =>
    intro l hl
    cases l with
    | nil => rfl
    | cons x xs =>
      have hd : ((x :: xs).drop 50).length ≤ n := by
        rw [List.length_drop]
        have hlen : (x :: xs).length ≤ n + 1 := hl
        omega
      simp only [chunksGo, List.flatten_cons]
      rw [ih ((x :: xs).drop 50) hd]
      exact List.take_append_drop 50 (x :: xs)

theorem chunks50_flatten {α : Type} (l : List α) : (chunks50 l).flatten = l :=
  chunksGo_flatten l.length l (Nat.le_refl _)

theorem chunksGo_congr {α : Type} :
    ∀ (f1 : Nat) (f2 : Nat) (l : List α), l.length ≤ f1 → l.length ≤ f2 →
      chunksGo f1 l = chunksGo f2 l := by
  intro f1
  induction f1 with
  | zero =>
    intro f2 l h1 h2
    cases l with
    | nil => cases f2 <;> rfl
    | cons x xs => simp at h1
  | succ n ih =>
    intro f2 l h1 h2
    cases l with
    | nil => cases f2 <;> rfl
    | cons x xs =>
      cases f2 with
      | zero => simp at h2
      | succ m =>
        simp only [chunksGo]
        rw [ih m ((x :: xs).drop 50)
          (by rw [List.length_drop]; have : (x :: xs).length ≤ n + 1 := h1; omega)
          (by rw [List.length_drop]; have : (x :: xs).length ≤ m + 1 := h2; omega)]

/-- The defining equation of Rust `chunks(50)`: a nonempty list yields its
first 50 elements as the first chunk, followed by the chunks of the rest. -/
theorem chunks50_eq {α : Type} (l : List α) (h : l ≠ []) :
    chunks50 l = l.take 50 :: chunks50 (l.drop 50) := by
  cases l with
  | nil => exact absurd rfl h
  | cons x xs =>
    show chunksGo (x :: xs).length (x :: xs) = _
    simp only [List.length_cons, chunksGo]
    rw [chunksGo_congr xs.length ((x :: xs).drop 50).length ((x :: xs).drop 50)
      (by rw [List.length_drop]; simp) (Nat.le_refl _)]
    rfl

theorem chunksGo_length {α : Type} :
    ∀ (fuel : Nat) (l : List α), l.length ≤ fuel →
      (chunksGo fuel l).length = (l.length + 49) / 50 := by
  intro fuel
  induction fuel with
  | zero =>
    intro l hl
    cases l with
    | nil => simp [chunksGo]
    | cons x xs => simp at hl
  | succ n ih =>
    intro l hl
    cases l with
    | nil => simp [chunksGo]
    | cons x xs =>
      have hd : ((x :: xs).drop 50).length ≤ n := by
        rw [List.length_drop]
        have : (x :: xs).length ≤ n + 1 := hl
        omega
      simp only [chunksGo, List.length_cons]
      rw [ih ((x :: xs).drop 50) hd, List.length_drop]
      simp only [List.length_cons]
      omega

theorem chunks50_length {α : Type} (l : List α) :
    (chunks50 l).length = (l.length + 49) / 50 :=
  chunksGo_length l.length l (Nat.le_refl _)

theorem chunksGo_chunk_le_50 {α : Type} :
    ∀ (fuel : Nat) (l : List α) (c : List α), c ∈ chunksGo fuel l → c.length ≤ 50 := by
  intro fuel
  induction fuel with
  | zero =>
    intro l c hc
    cases l <;> simp [chunksGo] at hc
  | succ n ih =>
    intro l c hc
    cases l with
    | nil => simp [chunksGo] at hc
    | cons x xs =>
      simp only [chunksGo, List.mem_cons] at hc
      rcases hc with hc | hc
      · subst hc
        rw [List.length_take]
        exact Nat.min_le_left _ _
      · exact ih _ _ hc

theorem chunks50_chunk_le_50 {α : Type} (l : List α) (c : List α)
    (hc : c ∈ chunks50 l) : c.length ≤ 50 :=
  chunksGo_chunk_le_50 l.length l c hc

theorem chunks50_sum_lengths {α : Type} (l : List α) :
    ((chunks50 l).map List.length).sum = l.length := by
  rw [← List.length_flatten, chunks50_flatten]

theorem syncBatchLoop_map_track_ids (mutate : Nat → List String → Except String Unit) :
    ∀ (i : Nat) (cs : List (List String)),
      ((syncBatchLoop mutate i cs).1).map SyncBatchLog.track_ids = cs := by
  intro i cs
  induction cs generalizing i with
  | nil => rfl
  | cons c rest ih =>
    cases h : mutate i c <;> simp [syncBatchLoop, h, ih]

theorem syncBatchLoop_map_tracks_count (mutate : Nat → List String → Except String Unit) :
    ∀ (i : Nat) (cs : List (List String)),
      ((syncBatchLoop mutate i cs).1).map SyncBatchLog.tracks_count = cs.map List.length := by
  intro i cs
  induction cs generalizing i with
  | nil => rfl
  | cons c rest ih =>
    cases h : mutate i c <;> simp [syncBatchLoop, h, ih]

theorem syncBatchLoop_length (mutate : Nat → List String → Except String Unit)
    (i : Nat) (cs : List (List String)) :
    ((syncBatchLoop mutate i cs).1).length = cs.length := by
  have := syncBatchLoop_map_track_ids mutate i cs
  calc ((syncBatchLoop mutate i cs).1).length
      = (((syncBatchLoop mutate i cs).1).map SyncBatchLog.track_ids).length := by
        rw [List.length_map]
    _ = cs.length := by rw [this]

theorem syncBatchLoop_events (mutate : Nat → List String → Except String Unit) :
    ∀ (i : Nat) (cs : List (List String)),
      (syncBatchLoop mutate i cs).2 = cs.map NetEvent.addChunk := by
  intro i cs
  induction cs generalizing i with
  | nil => rfl
  | cons c rest ih =>
    cases h : mutate i c <;> simp [syncBatchLoop, h, ih]

theorem syncBatchLoop_status (mutate : Nat → List String → Except String Unit) :
    ∀ (cs : List (List String)) (i : Nat) (j : Nat) (hj : j < cs.length)
      (hj2 : j < ((syncBatchLoop mutate i cs).1).length),
      (((syncBatchLoop mutate i cs).1).get ⟨j, hj2⟩).status =
        match mutate (i + j) (cs.get ⟨j, hj⟩) with
        | Except.ok _ => "Success"
        | Except.error e => "Error: " ++ e := by
  intro cs
  induction cs with
  | nil => intro i j hj; simp at hj
  | cons c rest ih =>
    intro i j hj hj2
    cases j with
    | zero =>
      cases h : mutate i c <;> simp [syncBatchLoop, h]
    | succ j2 =>
      have hjr : j2 < rest.length := by simpa using hj
      have hstep : ((syncBatchLoop mutate i (c :: rest)).1).get ⟨j2 + 1, hj2⟩ =
          ((syncBatchLoop mutate (i + 1) rest).1).get
            ⟨j2, by simpa [syncBatchLoop_length] using hjr⟩ := by
        cases h : mutate i c <;> simp [syncBatchLoop, h]
      rw [hstep, ih (i + 1) j2 hjr]
      have harith : i + 1 + j2 = i + (j2 + 1) := by omega
      simp [harith]

theorem insertByMarketsDesc_perm (t : FullTrack) :
    ∀ l : List FullTrack, (insertByMarketsDesc t l).Perm (t :: l) := by
  intro l
  induction l with
  | nil => exact List.Perm.refl _
  | cons u us ih =>
    by_cases h : u.available_markets.length ≤ t.available_markets.length
    · simp [insertByMarketsDesc, h]
    · simp only [insertByMarketsDesc, if_neg h]
      exact (ih.cons u).trans (List.Perm.swap t u us)

theorem sortByMarketsDesc_perm :
    ∀ l : List FullTrack, (sortByMarketsDesc l).Perm l := by
  intro l
  induction l with
  | nil => exact List.Perm.refl _
  | cons t ts ih =>
    exact (insertByMarketsDesc_perm t (sortByMarketsDesc ts)).trans (ih.cons t)

theorem mem_insertByMarketsDesc (t : FullTrack) (l : List FullTrack) (x : FullTrack)
    (hx : x ∈ insertByMarketsDesc t l) : x = t ∨ x ∈ l :=
  List.mem_cons.mp ((insertByMarketsDesc_perm t l).mem_iff.mp hx)

theorem pairwise_insertByMarketsDesc (t : FullTrack) :
    ∀ l : List FullTrack,
      List.Pairwise (fun a b => b.available_markets.length ≤ a.available_markets.length) l →
      List.Pairwise (fun a b => b.available_markets.length ≤ a.available_markets.length)
        (insertByMarketsDesc t l) := by
  intro l
  induction l with
  | nil => intro _; simp [insertByMarketsDesc]
  | cons u us ih =>
    intro hp
    rcases List.pairwise_cons.mp hp with ⟨hu, hus⟩
    by_cases h : u.available_markets.length ≤ t.available_markets.length
    · simp only [insertByMarketsDesc, if_pos h]
      refine List.pairwise_cons.mpr ⟨?_, hp⟩
      intro x hx
      rcases List.mem_cons.mp hx with rfl | hx
      · exact h
      · exact le_trans (hu x hx) h
    · simp only [insertByMarketsDesc, if_neg h]
      refine List.pairwise_cons.mpr ⟨?_, ih hus⟩
      intro x hx
      rcases mem_insertByMarketsDesc t us x hx with rfl | hx
      · omega
      · exact hu x hx

theorem sortByMarketsDesc_sorted :
    ∀ l : List FullTrack,
      List.Pairwise (fun a b => b.available_markets.length ≤ a.available_markets.length)
        (sortByMarketsDesc l) := by
  intro l
  induction l with
  | nil => simp [sortByMarketsDesc]
  | cons t ts ih => exact pairwise_insertByMarketsDesc t (sortByMarketsDesc ts) ih

theorem filter_insertByMarketsDesc_eq (t : FullTrack) (k : Nat)
    (ht : t.available_markets.length = k) :
    ∀ l : List FullTrack,
      (insertByMarketsDesc t l).filter (fun u => u.available_markets.length == k) =
        t :: l.filter (fun u => u.available_markets.length == k) := by
  intro l
  induction l with
  | nil =>
    show List.filter _ [t] = [t]
    simp [List.filter_cons, ht]
  | cons u us ih =>
    by_cases h : u.available_markets.length ≤ t.available_markets.length
    · simp only [insertByMarketsDesc, if_pos h]
      simp [List.filter_cons, ht]
    · have hne : ¬ u.available_markets.length = k := by omega
      simp only [insertByMarketsDesc, if_neg h]
      simp [List.filter_cons, hne, ih]

theorem filter_insertByMarketsDesc_ne (t : FullTrack) (k : Nat)
    (ht : ¬ t.available_markets.length = k) :
    ∀ l : List FullTrack,
      (insertByMarketsDesc t l).filter (fun u => u.available_markets.length == k) =
        l.filter (fun u => u.available_markets.length == k) := by
  intro l
  induction l with
  | nil =>
    show List.filter _ [t] = []
    simp [List.filter_cons, ht]
  | cons u us ih =>
    by_cases h : u.available_markets.length ≤ t.available_markets.length
    · simp only [insertByMarketsDesc, if_pos h]
      simp [List.filter_cons, ht]
    · simp only [insertByMarketsDesc, if_neg h]
      simp [List.filter_cons, ih]

theorem sortByMarketsDesc_stable :
    ∀ (l : List FullTrack) (k : Nat),
      (sortByMarketsDesc l).filter (fun u => u.available_markets.length == k) =
        l.filter (fun u => u.available_markets.length == k) := by
  intro l
  induction l with
  | nil => intro k; rfl
  | cons t ts ih =>
    intro k
    show (insertByMarketsDesc t (sortByMarketsDesc ts)).filter _ = _
    by_cases ht : t.available_markets.length = k
    · rw [filter_insertByMarketsDesc_eq t k ht, ih k]
      simp [List.filter_cons, ht]
    · rw [filter_insertByMarketsDesc_ne t k ht, ih k]
      simp [List.filter_cons, ht]

theorem foldl_removalStep (best : FullTrack) :
    ∀ (l : List FullTrack) (a b : List String),
      l.foldl (removalStep best) (a, b) =
        (a ++ l.filterMap (remId best), b ++ l.filterMap (remName best)) := by
  intro l
  induction l with
  | nil => intro a b; simp
  | cons d ds ih =>
    intro a b
    simp only [List.foldl_cons]
    cases hid : d.id with
    | none =>
      simp only [removalStep, hid]
      rw [ih a b]
      simp [remId, remName, hid]
    | some dupId =>
      by_cases hne : some dupId ≠ best.id
      · simp only [removalStep, hid, if_pos hne]
        rw [ih (a ++ [dupId]) (b ++ [dupDescription d])]
        simp [remId, remName, hid, hne]
      · simp only [removalStep, hid, if_neg hne]
        rw [ih a b]
        simp [remId, remName, hid, hne]

theorem processGroup_eq (tracks : List FullTrack) (best : FullTrack)
    (rest : List FullTrack) (hlen : 1 < tracks.length)
    (hsort : sortByMarketsDesc tracks = best :: rest)
    (halive : 0 < best.available_markets.length) :
    processGroup tracks = (rest.filterMap (remId best), rest.filterMap (remName best)) := by
  rw [processGroup, if_pos hlen, hsort]
  show (if 0 < best.available_markets.length then rest.foldl (removalStep best) ([], [])
    else ([], [])) = _
  rw [if_pos halive, foldl_removalStep best rest [] []]
  simp

theorem processGroup_dead (tracks : List FullTrack) (best : FullTrack)
    (rest : List FullTrack) (hlen : 1 < tracks.length)
    (hsort : sortByMarketsDesc tracks = best :: rest)
    (hdead : best.available_markets.length = 0) :
    processGroup tracks = ([], []) := by
  rw [processGroup, if_pos hlen, hsort]
  show (if 0 < best.available_markets.length then rest.foldl (removalStep best) ([], [])
    else ([], [])) = _
  rw [if_neg (by omega)]

theorem dedupResolve_foldl (gs : List (String × List FullTrack)) :
    ∀ a b : List String,
      gs.foldl (fun acc kg => (acc.1 ++ groupRemovalIds kg, acc.2 ++ groupRemovalNames kg))
        (a, b) =
      (a ++ gs.flatMap groupRemovalIds, b ++ gs.flatMap groupRemovalNames) := by
  induction gs with
  | nil => intro a b; simp
  | cons kg rest ih =>
    intro a b
    simp only [List.foldl_cons, List.flatMap_cons]
    rw [ih (a ++ groupRemovalIds kg) (b ++ groupRemovalNames kg)]
    simp

theorem dedupResolve_eq (gs : List (String × List FullTrack)) :
    dedupResolve gs = (gs.flatMap groupRemovalIds, gs.flatMap groupRemovalNames) := by
  rw [dedupResolve, dedupResolve_foldl gs [] []]
  simp

theorem mem_insertGroup :
    ∀ (m : List (String × List FullTrack)) (k : String) (t : FullTrack)
      (k2 : String) (g : List FullTrack) (x : FullTrack),
      (k2, g) ∈ insertGroup m k t → x ∈ g →
      (∃ g0, (k2, g0) ∈ m ∧ x ∈ g0) ∨ (x = t ∧ k2 = k) := by
  intro m
  induction m with
  | nil =>
    intro k t k2 g x hmem hx
    simp only [insertGroup, List.mem_singleton, Prod.mk.injEq] at hmem
    rcases hmem with ⟨rfl, rfl⟩
    simp only [List.mem_singleton] at hx
    exact Or.inr ⟨hx, rfl⟩
  | cons hd rest ih =>
    intro k t k2 g x hmem hx
    rcases hd with ⟨k1, g1⟩
    by_cases hk : k1 = k
    · simp only [insertGroup, if_pos hk, List.mem_cons, Prod.mk.injEq] at hmem
      rcases hmem with ⟨rfl, rfl⟩ | hmem
      · rcases List.mem_append.mp hx with hx | hx
        · exact Or.inl ⟨g1, List.mem_cons_self _ _, hx⟩
        · simp only [List.mem_singleton] at hx
          exact Or.inr ⟨hx, hk⟩
      · exact Or.inl ⟨g, List.mem_cons_of_mem _ hmem, hx⟩
    · simp only [insertGroup, if_neg hk, List.mem_cons, Prod.mk.injEq] at hmem
      rcases hmem with ⟨rfl, rfl⟩ | hmem
      · exact Or.inl ⟨g, List.mem_cons_self _ _, hx⟩
      · rcases ih k t k2 g x hmem hx with ⟨g0, hg0, hxg0⟩ | hr
        · exact Or.inl ⟨g0, List.mem_cons_of_mem _ hg0, hxg0⟩
        · exact Or.inr hr

theorem mem_groupByIsrc_aux :
    ∀ (ts : List FullTrack) (m : List (String × List FullTrack))
      (k : String) (g : List FullTrack) (x : FullTrack),
      (k, g) ∈ ts.foldl
        (fun m t =>
          match (t.external_ids).lookup "isrc" with
          | some isrc => insertGroup m isrc t
          | none => m) m →
      x ∈ g →
      (∃ g0, (k, g0) ∈ m ∧ x ∈ g0) ∨
      (x ∈ ts ∧ (x.external_ids).lookup "isrc" = some k) := by
  intro ts
  induction ts with
  | nil =>
    intro m k g x hmem hx
    exact Or.inl ⟨g, hmem, hx⟩
  | cons t rest ih =>
    intro m k g x hmem hx
    simp only [List.foldl_cons] at hmem
    cases hisrc : (t.external_ids).lookup "isrc" with
    | none =>
      rw [hisrc] at hmem
      rcases ih m k g x hmem hx with hl | ⟨hxr, hlk⟩
      · exact Or.inl hl
      · exact Or.inr ⟨List.mem_cons_of_mem _ hxr, hlk⟩
    | some isrc =>
      rw [hisrc] at hmem
      rcases ih (insertGroup m isrc t) k g x hmem hx with ⟨g0, hg0, hxg0⟩ | ⟨hxr, hlk⟩
      · rcases mem_insertGroup m isrc t k g0 x hg0 hxg0 with hl | ⟨rfl, rfl⟩
        · exact Or.inl hl
        · exact Or.inr ⟨List.mem_cons_self _ _, hisrc⟩
      · exact Or.inr ⟨List.mem_cons_of_mem _ hxr, hlk⟩

/-- Every member of an ISRC group was observed in the enumerated track list
and carries that very ISRC in its external-identifier mapping. -/
theorem mem_groupByIsrc (ts : List FullTrack) (k : String) (g : List FullTrack)
    (x : FullTrack) (hmem : (k, g) ∈ groupByIsrc ts) (hx : x ∈ g) :
    x ∈ ts ∧ (x.external_ids).lookup "isrc" = some k := by
  rcases mem_groupByIsrc_aux ts [] k g x hmem hx with ⟨g0, hg0, _⟩ | h
  · simp at hg0
  · exact h

/-- Every removal id produced for a group is the id of some member of that
group. -/
theorem processGroup_id_mem (g : List FullTrack) (i : String)
    (hi : i ∈ (processGroup g).1) : ∃ t, t ∈ g ∧ t.id = some i := by
  by_cases hlen : 1 < g.length
  · cases hsort : sortByMarketsDesc g with
    | nil =>
      have := (sortByMarketsDesc_perm g).length_eq
      rw [hsort] at this
      simp at this
      omega
    | cons best rest =>
      by_cases halive : 0 < best.available_markets.length
      · rw [processGroup_eq g best rest hlen hsort halive] at hi
        simp only at hi
        rcases List.mem_filterMap.mp hi with ⟨d, hd, hrem⟩
        have hdg : d ∈ g := by
          have : d ∈ best :: rest := List.mem_cons_of_mem _ hd
          rw [← hsort] at this
          exact (sortByMarketsDesc_perm g).mem_iff.mp this
        refine ⟨d, hdg, ?_⟩
        unfold remId at hrem
        cases hid : d.id with
        | none => rw [hid] at hrem; simp at hrem
        | some dupId =>
          rw [hid] at hrem
          by_cases hne : some dupId ≠ best.id
          · simp only [hne, if_true] at hrem
            rw [if_pos hne] at hrem
            exact hrem
          · simp [hne] at hrem
      · rw [processGroup_dead g best rest hlen hsort (by omega)] at hi
        simp at hi
  · rw [processGroup, if_neg hlen] at hi
    simp at hi

/-- C4: for every track whose playability flag is absent or known-playable,
`analyze_track` returns no problem; for every explicitly known-unplayable
track it returns exactly one `ProblematicTrack` preserving the track's id,
name, album, comma-joined artist names and available-market count, with the
fixed reason string naming the catalog service's unplayable marking. -/
theorem classifier_spec (t : FullTrack) :
    (t.is_playable ≠ some false → analyze_track t = none) ∧
    (t.is_playable = some false →
      ∃ p : ProblematicTrack, analyze_track t = some p ∧
        (∀ i : String, t.id = some i → p.id = i) ∧
        p.name = t.name ∧
        p.album = t.album.name ∧
        p.artists = String.intercalate ", " (t.artists.map SimplifiedArtist.name) ∧
        p.available_markets_count = t.available_markets.length ∧
        p.reason = "Track marked as unplayable by Spotify") := by
  constructor
  · intro h
    unfold analyze_track
    cases hp : t.is_playable with
    | none => simp
    | some b =>
      cases b with
      | false => exact absurd hp h
      | true => simp
  · intro h
    refine ⟨create_problem_report t "Track marked as unplayable by Spotify", ?_, ?_,
      rfl, rfl, rfl, rfl, rfl⟩
    · unfold analyze_track
      rw [h]
      simp
    · intro i hi
      unfold create_problem_report
      simp [hi]

/-- C4 witness: the unknown-playability track is not flagged; the
known-unplayable track is flagged with the fixed reason. -/
theorem classifier_spec_witness :
    analyze_track tUnknownPlayable = none ∧
    ∃ p : ProblematicTrack, analyze_track tUnplayable = some p ∧
      p.reason = "Track marked as unplayable by Spotify" := by
  constructor
  · exact (classifier_spec tUnknownPlayable).1 (by decide)
  · obtain ⟨p, hp, _, _, _, _, _, hr⟩ := (classifier_spec tUnplayable).2 rfl
    exact ⟨p, hp, hr⟩

/-- C10: a flagged track with no catalog identifier reports the literal id
"unknown", and one with no "spotify" external URL reports an empty
external_url. -/
theorem problem_report_defaults (t : FullTrack) (p : ProblematicTrack)
    (hp : analyze_track t = some p) :
    (t.id = none → p.id = "unknown") ∧
    ((t.external_urls).lookup "spotify" = none → p.external_url = "") := by
  have hpc : p = create_problem_report t "Track marked as unplayable by Spotify" := by
    unfold analyze_track at hp
    by_cases h : (t.is_playable).getD true
    · simp [h] at hp
    · simp only [h, Bool.not_false, if_pos] at hp
      exact (Option.some.injEq _ _ ▸ hp).symm
  subst hpc
  constructor
  · intro h
    unfold create_problem_report
    simp [h]
  · intro h
    unfold create_problem_report
    simp [h]

/-- C10 witness: the unplayable local file (no id, no spotify URL) reports id
"unknown" and an empty external URL. -/
theorem problem_report_defaults_witness :
    (create_problem_report tLocalFile "Track marked as unplayable by Spotify").id =
      "unknown" ∧
    (create_problem_report tLocalFile "Track marked as unplayable by Spotify").external_url =
      "" := by
  have h := problem_report_defaults tLocalFile
    (create_problem_report tLocalFile "Track marked as unplayable by Spotify") rfl
  exact ⟨h.1 rfl, h.2 rfl⟩

/-- C1: for an ISRC group with more than one member, the group is processed in
stable descending available-market order (the sort is a permutation of the
group, sorted by descending market count, and preserves encounter order among
equal counts); the head is the keeper; a keeper with zero markets yields no
removals for the group; otherwise every later member whose id differs from
the keeper's is proposed for removal regardless of its own market count,
carrying the description "name (Markets: n)". -/
theorem dedup_group_policy (g : List FullTrack) (hlen : 1 < g.length)
    (best : FullTrack) (rest : List FullTrack)
    (hsort : sortByMarketsDesc g = best :: rest) :
    (sortByMarketsDesc g).Perm g ∧
    List.Pairwise (fun a b => b.available_markets.length ≤ a.available_markets.length)
      (sortByMarketsDesc g) ∧
    (∀ k : Nat,
      (sortByMarketsDesc g).filter (fun u => u.available_markets.length == k) =
        g.filter (fun u => u.available_markets.length == k)) ∧
    (best.available_markets.length = 0 → processGroup g = ([], [])) ∧
    (0 < best.available_markets.length →
      ∀ d ∈ rest, ∀ i : String, d.id = some i → some i ≠ best.id →
        i ∈ (processGroup g).1 ∧
        (d.name ++ " (Markets: " ++ toString d.available_markets.length ++ ")") ∈
          (processGroup g).2) := by
  refine ⟨sortByMarketsDesc_perm g, sortByMarketsDesc_sorted g,
    fun k => sortByMarketsDesc_stable g k, ?_, ?_⟩
  · intro hdead
    exact processGroup_dead g best rest hlen hsort hdead
  · intro halive d hd i hi hne
    rw [processGroup_eq g best rest hlen hsort halive]
    constructor
    · exact List.mem_filterMap.mpr ⟨d, hd, by simp [remId, hi, hne]⟩
    · exact List.mem_filterMap.mpr ⟨d, hd, by simp [remName, dupDescription, hi, hne]⟩

/-- C1 witness: in the group with a dead first copy and a live second copy,
the live copy is the keeper and the dead copy is proposed for removal with
its description. -/
theorem dedup_group_policy_witness :
    "a2" ∈ (processGroup gWitness).1 ∧
    (tDeadA.name ++ " (Markets: " ++ toString tDeadA.available_markets.length ++ ")") ∈
      (processGroup gWitness).2 :=
  (dedup_group_policy gWitness (by decide) tLiveA [tDeadA] (by decide)).2.2.2.2
    (by decide) tDeadA (by decide) "a2" rfl (by decide)

/-- C8: every identifier proposed for removal is the id of a track observed in
the enumerated saved-tracks list, and that track carries an ISRC in its
external-identifier mapping; ISRC-less tracks never appear in a proposal. -/
theorem dedup_removals_observed (ts : List FullTrack)
    (order : List (String × List FullTrack)) (horder : order.Perm (groupByIsrc ts))
    (i : String) (hi : i ∈ (dedupResolve order).1) :
    ∃ t : FullTrack, t ∈ ts ∧ t.id = some i ∧
      (t.external_ids).lookup "isrc" ≠ none := by
  rw [dedupResolve_eq] at hi
  rcases List.mem_flatMap.mp hi with ⟨kg, hkg, hikg⟩
  have hkg2 : (kg.1, kg.2) ∈ groupByIsrc ts := horder.mem_iff.mp hkg
  unfold groupRemovalIds at hikg
  rcases processGroup_id_mem kg.2 i hikg with ⟨t, htg, hid⟩
  have hobs := mem_groupByIsrc ts kg.1 kg.2 t hkg2 htg
  refine ⟨t, hobs.1, hid, ?_⟩
  rw [hobs.2]
  simp

/-- C8 witness: the removal id "a2" proposed over the duplicated library
corresponds to an observed ISRC-carrying track. -/
theorem dedup_removals_observed_witness :
    ∃ t : FullTrack, t ∈ tsDup ∧ t.id = some "a2" ∧
      (t.external_ids).lookup "isrc" ≠ none :=
  dedup_removals_observed tsDup (groupByIsrc tsDup) (List.Perm.refl _) "a2" (by decide)

/-- C9 (amended): the keep/remove policy is deterministic up to the hash-map
iteration order of the ISRC groups: for any two iteration orders of the
grouping of the same enumerated sequence, the removal identifiers and the
description strings agree as multisets (hence as sets); only their order may
differ between runs. -/
theorem dedup_deterministic_up_to_order (ts : List FullTrack)
    (o1 o2 : List (String × List FullTrack))
    (h1 : o1.Perm (groupByIsrc ts)) (h2 : o2.Perm (groupByIsrc ts)) :
    ((dedupResolve o1).1).Perm ((dedupResolve o2).1) ∧
    ((dedupResolve o1).2).Perm ((dedupResolve o2).2) := by
  have h12 : o1.Perm o2 := h1.trans h2.symm
  rw [dedupResolve_eq, dedupResolve_eq]
  exact ⟨h12.flatMap_right groupRemovalIds, h12.flatMap_right groupRemovalNames⟩

/-- C9 witness: over the duplicated library, the canonical order and its
reverse give permutation-equal description lists. -/
theorem dedup_deterministic_up_to_order_witness :
    ((dedupResolve (groupByIsrc tsDup)).2).Perm
      ((dedupResolve ((groupByIsrc tsDup).reverse)).2) :=
  (dedup_deterministic_up_to_order tsDup (groupByIsrc tsDup)
    ((groupByIsrc tsDup).reverse) (List.Perm.refl _) (List.reverse_perm _)).2

/-- C9 counterexample: two admissible hash-map iteration orders over the same
enumerated sequence yield the returned description list in different orders,
so the returned list (including its order) is not identical across runs. -/
theorem dedup_order_counterexample :
    ((groupByIsrc tsDup).reverse).Perm (groupByIsrc tsDup) ∧
    (dedupResolve ((groupByIsrc tsDup).reverse)).2 ≠
      (dedupResolve (groupByIsrc tsDup)).2 := by
  constructor
  · exact List.reverse_perm _
  · decide

/-- C2 (amended): in the sync "add to liked" path, a chunk failure does not
abort the remaining chunks — every chunk is logged in order with its own
outcome and every add call is issued; in the dedup "remove from liked" path,
the first failing chunk aborts the loop: the error propagates and no later
delete call is issued. -/
theorem batch_mutation_isolation_amended :
    (∀ (mutate : Nat → List String → Except String Unit) (i : Nat)
       (cs : List (List String)),
       ((syncBatchLoop mutate i cs).1).map SyncBatchLog.track_ids = cs ∧
       (syncBatchLoop mutate i cs).2 = cs.map NetEvent.addChunk ∧
       ∀ (j : Nat) (hj : j < cs.length) (e : String),
         mutate (i + j) (cs.get ⟨j, hj⟩) = Except.error e →
         ∃ hj2 : j < ((syncBatchLoop mutate i cs).1).length,
           (((syncBatchLoop mutate i cs).1).get ⟨j, hj2⟩).status = "Error: " ++ e) ∧
    (∀ (delete : Nat → List String → Except String Unit) (i : Nat)
       (c : List String) (rest : List (List String)) (e : String),
       delete i c = Except.error e →
       runDeleteChunks delete i (c :: rest) =
         (Except.error e, [NetEvent.deleteChunk c])) := by
  constructor
  · intro mutate i cs
    refine ⟨syncBatchLoop_map_track_ids mutate i cs, syncBatchLoop_events mutate i cs, ?_⟩
    intro j hj e he
    refine ⟨by rw [syncBatchLoop_length]; exact hj, ?_⟩
    rw [syncBatchLoop_status mutate cs i j hj, he]
  · intro delete i c rest e he
    simp [runDeleteChunks, he]

/-- C2 witness: with an always-failing mutation, the sync loop still logs both
chunks, while the dedup delete loop stops after the first chunk. -/
theorem batch_mutation_isolation_amended_witness :
    ((syncBatchLoop (fun _ _ => Except.error "boom") 0 [["a"], ["b"]]).1).map
      SyncBatchLog.track_ids = [["a"], ["b"]] ∧
    runDeleteChunks (fun _ _ => Except.error "boom") 0 [["a"], ["b"]] =
      (Except.error "boom", [NetEvent.deleteChunk ["a"]]) :=
  ⟨(batch_mutation_isolation_amended.1 (fun _ _ => Except.error "boom") 0
      [["a"], ["b"]]).1,
   batch_mutation_isolation_amended.2 (fun _ _ => Except.error "boom") 0 ["a"] [["b"]]
     "boom" rfl⟩

/-- C2 counterexample: 51 identifiers submitted to the dedup "remove from
liked" path form two chunks; when the first delete call fails, the second
chunk is never attempted and the call produces an error, not a report. -/
theorem batch_mutation_counterexample :
    (chunks50 idList51).length = 2 ∧
    runDeleteChunks (fun _ _ => Except.error "rate limit") 0 (chunks50 idList51) =
      (Except.error "rate limit", [NetEvent.deleteChunk (idList51.take 50)]) := by
  constructor
  · decide
  · rw [chunks50_eq idList51 (by decide)]
    rfl

/-- C3: when sync runs over a playlist with a non-empty collected identifier
list of length N, the report holds exactly ceil(N/50) batch logs, their
track_ids concatenate back to the collected list, no log holds more than 50
identifiers, and the tracks_count fields sum to N. -/
theorem sync_batch_chunking (env : SyncEnv) (pid : String)
    (items : List PlaylistItem) (r : SyncReport) (tr : List NetEvent)
    (hitems : env.playlistItemsResult = Except.ok items)
    (hne : collectTrackIds items ≠ [])
    (hrun : sync_playlist_to_liked env pid = (Except.ok r, tr)) :
    r.batch_logs.length = ((collectTrackIds items).length + 49) / 50 ∧
    (r.batch_logs.map SyncBatchLog.track_ids).flatten = collectTrackIds items ∧
    (∀ l ∈ r.batch_logs, l.track_ids.length ≤ 50) ∧
    (r.batch_logs.map SyncBatchLog.tracks_count).sum =
      (collectTrackIds items).length := by
  unfold sync_playlist_to_liked at hrun
  cases hinit : env.initialCountResult with
  | error e => rw [hinit] at hrun; simp at hrun
  | ok initial =>
    rw [hinit] at hrun
    dsimp only [] at hrun
    by_cases hv : validSpotifyId pid
    · rw [if_pos hv, hitems] at hrun
      dsimp only [] at hrun
      rw [if_neg hne] at hrun
      cases hfin : env.finalCountResult with
      | error e2 => rw [hfin] at hrun; simp at hrun
      | ok finalC =>
        rw [hfin] at hrun
        dsimp only [] at hrun
        simp only [Prod.mk.injEq, Except.ok.injEq] at hrun
        obtain ⟨hr, htr⟩ := hrun
        subst hr
        refine ⟨?_, ?_, ?_, ?_⟩
        · show ((syncBatchLoop env.addResult 0 (chunks50 (collectTrackIds items))).1).length = _
          rw [syncBatchLoop_length, chunks50_length]
        · show ((((syncBatchLoop env.addResult 0
            (chunks50 (collectTrackIds items))).1).map SyncBatchLog.track_ids)).flatten = _
          rw [syncBatchLoop_map_track_ids, chunks50_flatten]
        · intro l hl
          have hmem : l.track_ids ∈ ((syncBatchLoop env.addResult 0
              (chunks50 (collectTrackIds items))).1).map SyncBatchLog.track_ids :=
            List.mem_map_of_mem _ hl
          rw [syncBatchLoop_map_track_ids] at hmem
          exact chunks50_chunk_le_50 _ _ hmem
        · show ((((syncBatchLoop env.addResult 0
            (chunks50 (collectTrackIds items))).1).map SyncBatchLog.tracks_count)).sum = _
          rw [syncBatchLoop_map_tracks_count, chunks50_sum_lengths]
    · rw [if_neg hv] at hrun
      simp at hrun

/-- C3 witness: the concrete all-success sync run reproduces its collected
identifier list from its batch logs. -/
theorem sync_batch_chunking_witness :
    (repW.batch_logs.map SyncBatchLog.track_ids).flatten = collectTrackIds itemsW :=
  (sync_batch_chunking syncEnvW "pl1" itemsW repW trW rfl (by decide) rfl).2.1

/-- C6: every successfully returned SyncReport has
estimated_added = max(0, final - initial): zero when the count regresses,
never negative. -/
theorem sync_estimated_added (env : SyncEnv) (pid : String) (r : SyncReport)
    (tr : List NetEvent)
    (hrun : sync_playlist_to_liked env pid = (Except.ok r, tr)) :
    (r.estimated_added : Int) =
      max 0 ((r.final_liked_count : Int) - (r.initial_liked_count : Int)) := by
  unfold sync_playlist_to_liked at hrun
  cases hinit : env.initialCountResult with
  | error e => rw [hinit] at hrun; simp at hrun
  | ok initial =>
    rw [hinit] at hrun
    dsimp only [] at hrun
    by_cases hv : validSpotifyId pid
    · rw [if_pos hv] at hrun
      cases hitems : env.playlistItemsResult with
      | error e => rw [hitems] at hrun; simp at hrun
      | ok items =>
        rw [hitems] at hrun
        dsimp only [] at hrun
        by_cases hemp : collectTrackIds items = []
        · rw [if_pos hemp] at hrun
          simp only [Prod.mk.injEq, Except.ok.injEq] at hrun
          obtain ⟨hr, _⟩ := hrun
          subst hr
          simp
        · rw [if_neg hemp] at hrun
          cases hfin : env.finalCountResult with
          | error e2 => rw [hfin] at hrun; simp at hrun
          | ok finalC =>
            rw [hfin] at hrun
            dsimp only [] at hrun
            simp only [Prod.mk.injEq, Except.ok.injEq] at hrun
            obtain ⟨hr, _⟩ := hrun
            subst hr
            show ((if initial ≤ finalC then finalC - initial else 0 : Nat) : Int) =
              max 0 ((finalC : Int) - (initial : Int))
            by_cases hle : initial ≤ finalC
            · rw [if_pos hle, max_eq_right (by omega)]
              omega
            · rw [if_neg hle, max_eq_left (by omega)]
              simp
    · rw [if_neg hv] at hrun
      simp at hrun

/-- C6 witness: the concrete sync run (5 before, 7 after) reports
estimated_added = 2 = max(0, 7 - 5). -/
theorem sync_estimated_added_witness :
    (repW.estimated_added : Int) =
      max 0 ((repW.final_liked_count : Int) - (repW.initial_liked_count : Int)) :=
  sync_estimated_added syncEnvW "pl1" repW trW rfl

/-- C7: a playlist enumeration yielding zero collectible identifiers makes
sync return immediately with final = initial, an empty batch log, and no
mutation call in its network trace. -/
theorem sync_empty_short_circuit (env : SyncEnv) (pid : String) (n : Nat)
    (items : List PlaylistItem)
    (hv : validSpotifyId pid = true)
    (hinit : env.initialCountResult = Except.ok n)
    (hitems : env.playlistItemsResult = Except.ok items)
    (hz : collectTrackIds items = []) :
    ∃ r : SyncReport,
      sync_playlist_to_liked env pid =
        (Except.ok r, [NetEvent.savedCountQuery, NetEvent.playlistItemsPage]) ∧
      r.final_liked_count = r.initial_liked_count ∧
      r.batch_logs = [] ∧
      ∀ ev ∈ (sync_playlist_to_liked env pid).2, ev.isMutation = false := by
  have h1 : sync_playlist_to_liked env pid =
      (Except.ok
        { initial_liked_count := n
          final_liked_count := n
          total_tracks_in_playlist := items.length
          tracks_processed := (collectTrackIds items).length
          estimated_added := 0
          batch_logs := [] },
       [NetEvent.savedCountQuery, NetEvent.playlistItemsPage]) := by
    unfold sync_playlist_to_liked
    rw [hinit]
    dsimp only []
    rw [if_pos hv, hitems]
    dsimp only []
    rw [if_pos hz]
  refine ⟨_, h1, rfl, rfl, ?_⟩
  rw [h1]
  dsimp only []
  decide

/-- C7 witness: the concrete no-collectible-identifier playlist returns with
final = initial, no batch logs, and a mutation-free trace. -/
theorem sync_empty_short_circuit_witness :
    ∃ r : SyncReport,
      sync_playlist_to_liked syncEnvEmpty "pl1" =
        (Except.ok r, [NetEvent.savedCountQuery, NetEvent.playlistItemsPage]) ∧
      r.final_liked_count = r.initial_liked_count ∧
      r.batch_logs = [] ∧
      ∀ ev ∈ (sync_playlist_to_liked syncEnvEmpty "pl1").2, ev.isMutation = false :=
  sync_empty_short_circuit syncEnvEmpty "pl1" 5 itemsEmpty (by decide) rfl rfl (by decide)

/-- C5 (amended): scan_playlist and inspect_track reject a malformed
identifier with the InvalidIdentifier error before any network call;
sync_playlist_to_liked issues the initial liked-count query first and rejects
the malformed identifier before any further network call (no enumeration, no
mutation). -/
theorem invalid_id_rejection_amended (pid : String)
    (hbad : validSpotifyId pid = false) :
    (∀ env : ScanEnv,
       scan_playlist env pid = (Except.error (AuditError.InvalidId pid), [])) ∧
    (∀ env : InspectEnv,
       inspect_track env pid = (Except.error (AuditError.InvalidTrackId pid), [])) ∧
    (∀ (env : SyncEnv) (n : Nat), env.initialCountResult = Except.ok n →
       sync_playlist_to_liked env pid =
         (Except.error (AuditError.InvalidId pid), [NetEvent.savedCountQuery])) := by
  refine ⟨?_, ?_, ?_⟩
  · intro env
    unfold scan_playlist
    rw [if_neg (by simp [hbad])]
  · intro env
    unfold inspect_track
    rw [if_neg (by simp [hbad])]
  · intro env n hn
    unfold sync_playlist_to_liked
    rw [hn]
    dsimp only []
    rw [if_neg (by simp [hbad])]

/-- C5 witness: scan rejects "bad id!" with no network call; sync rejects it
after exactly the initial count query. -/
theorem invalid_id_rejection_amended_witness :
    scan_playlist { playlistItemsResult := Except.ok [] } "bad id!" =
      (Except.error (AuditError.InvalidId "bad id!"), []) ∧
    sync_playlist_to_liked syncEnvW "bad id!" =
      (Except.error (AuditError.InvalidId "bad id!"), [NetEvent.savedCountQuery]) := by
  have h := invalid_id_rejection_amended "bad id!" (by decide)
  exact ⟨h.1 _, h.2.2 syncEnvW 5 rfl⟩

/-- C5 counterexample: sync_playlist_to_liked fails with InvalidIdentifier on
a malformed id, but only after a network call (the saved-count query) has
already been made, so the rejection does not precede every network call. -/
theorem invalid_id_counterexample :
    (sync_playlist_to_liked syncEnvW "bad id!").1 =
      Except.error (AuditError.InvalidId "bad id!") ∧
    (sync_playlist_to_liked syncEnvW "bad id!").2 ≠ [] := by
  constructor
  · rfl
  · decide
